import Mathlib

/-!
Verification of the IPFS HTTP client (`src/client.cc`) against its
specification.  The development shallowly embeds the client's request
construction, response decoding and endpoint reshaping logic.

Modelling conventions:
* `Json` is the generic JSON tree (the source's `nlohmann::json`).  A JSON
  object is a list of key/value pairs kept in ascending key order, mirroring
  `nlohmann::json`'s `object_t = std::map<std::string, json>`; `strLt` is the
  byte-wise lexicographic order `std::less<std::string>` uses.
* JSON parsing itself is an external library collaborator; the line decoders
  take an abstract `parse : String → Option Json` parameter standing for
  `nlohmann::json::parse` (`none` = the parser throws).
* Exceptions become `Except Err` values; each `Err` constructor keeps the
  data the corresponding `std::runtime_error` / `nlohmann` exception carries.
* The `Transport` collaborator is opaque: a `Transport` value stands for one
  transport instance, `Transport.Clone` for `Transport::Clone()` (`gen` is
  bumped so a clone is distinguishable from the original), and URL encoding
  is an abstract `enc : String → String` standing for `Transport::UrlEncode`.
-/

namespace Ipfs

/-- Generic JSON tree, the source's `ipfs::Json` (= `nlohmann::json`).
Object fields are kept sorted by key, as `std::map` iteration order is
ascending lexicographic. -/
inductive Json where
  | null : Json
  | bool : Bool → Json
  | num : Int → Json
  | str : String → Json
  | arr : List Json → Json
  | obj : List (String × Json) → Json

/-- Byte-wise lexicographic order on character lists, `std::less<std::string>`
restricted to the claims' (ASCII) inputs. -/
def charListLt : List Char → List Char → Bool
  | [], [] => false
  | [], _ :: _ => true
  | _ :: _, [] => false
  | a :: as, b :: bs => if a < b then true else if b < a then false else charListLt as bs

/-- Order on strings used by `std::map<std::string, json>`. -/
def strLt (a b : String) : Bool := charListLt a.data b.data

/-- Error kinds of the client, with the data each thrown exception carries. -/
inductive Err where
  | malformed (input : String) : Err
  | missingField (field : String) (line : Nat) (input : Json) : Err
  | notFound (key : String) (body : String) : Err
  | verificationFailed (objectId : String) (reply : Json) : Err
  | typeError (msg : String) : Err
  | keyNotFound (key : String) : Err

/-- Lookup of a key in an object's field list (`std::map::find`). -/
def lookupField : List (String × Json) → String → Option Json
  | [], _ => none
  | (k, v) :: fs, q => if q = k then some v else lookupField fs q

/-- Model of `nlohmann::json::find`: a lookup that yields the field's value
when the receiver is an object containing the key, and `end()` (here `none`)
otherwise, also on non-objects. -/
def Json.find : Json → String → Option Json
  | .obj fs, k => lookupField fs k
  | _, _ => none

/-- Model of non-const `nlohmann::json::operator[]` as the source uses it for
reading: on an object it yields the field's value or `null` when absent (the
C++ call inserts a `null` member and returns it); on `null` it behaves as on
an empty object; on any other type it throws a `type_error`. -/
def Json.bracket : Json → String → Except Err Json
  | .obj fs, k =>
    match lookupField fs k with
    | some v => .ok v
    | none => .ok .null
  | .null, _ => .ok .null
  | _, _ => .error (.typeError "cannot use operator[] with a string argument")

/-- Model of `nlohmann::json::at(key)`: yields the field's value on an object
containing the key, throws `out_of_range` (key not found) when the key is
absent, and `type_error` on non-objects. -/
def Json.atKey : Json → String → Except Err Json
  | .obj fs, k =>
    match lookupField fs k with
    | some v => .ok v
    | none => .error (.keyNotFound k)
  | _, _ => .error (.typeError "cannot use at() with this type")

/-- Conversion of a JSON value to `std::string` (assignment or `get_to`):
succeeds exactly on strings, otherwise throws a `type_error`. -/
def getToString : Json → Except Err String
  | .str s => .ok s
  | _ => .error (.typeError "type must be string")

/-- Model of `Client::GetProperty` instantiated at `PropertyType = Json`:
checks `input.find(name)` and throws the missing-property `runtime_error`
(carrying the property name, the line number and the dumped input) when the
field is absent, else yields the field's value. -/
def GetPropertyJson (input : Json) (name : String) (line : Nat) : Except Err Json :=
  match input.find name with
  | none => .error (.missingField name line input)
  | some v => .ok v

/-- Model of `Client::GetProperty` instantiated at
`PropertyType = std::string`: after the `find` check the assignment
`*property_value = input[property_name]` converts the JSON value to a
string, throwing a `type_error` when it is not a string. -/
def GetPropertyString (input : Json) (name : String) (line : Nat) : Except Err String :=
  match input.find name with
  | none => .error (.missingField name line input)
  | some (.str s) => .ok s
  | some _ => .error (.typeError "type must be string")

/-- Accumulator loop of the `std::getline` splitter: `acc` holds the current
line's characters in reverse.  `getline` consumes up to a newline or the end
of the stream; a read that consumes no characters at end of stream fails and
ends the loop, so a trailing newline produces no extra empty line. -/
def getlinesAux : List Char → List Char → List (List Char)
  | [], acc => [acc.reverse]
  | c :: cs, acc =>
    if c = '\n' then
      match cs with
      | [] => [acc.reverse]
      | c2 :: cs2 => acc.reverse :: getlinesAux (c2 :: cs2) []
    else getlinesAux cs (c :: acc)

/-- Lines a `while (std::getline(body, line))` loop sees for a given body. -/
def getlines : List Char → List (List Char)
  | [] => []
  | c :: cs => getlinesAux (c :: cs) []

/-- String-level view of `getlines`. -/
def linesOf (s : String) : List String := (getlines s.data).map fun cs => ⟨cs⟩

/-- Model of `Client::MakeUrl`: fixed prefix/path/default-flag part, then the
caller's parameters with the session timeout appended when non-empty, each
emitted as `&name=value` with both sides passed through the transport's URL
encoder `enc`. -/
def MakeUrl (url_prefix_ timeout_value_ : String) (enc : String → String)
    (path : String) (parameters : List (String × String)) : String :=
  let url := url_prefix_ ++ "/" ++ path ++ "?stream-channels=true&json=true&encoding=json"
  let params := parameters ++ (if timeout_value_ = "" then [] else [("timeout", timeout_value_)])
  params.foldl (fun u p => u ++ "&" ++ enc p.1 ++ "=" ++ enc p.2) url

/-- Opaque transport instance (`http::TransportCurl` behind
`std::unique_ptr<http::Transport>`); `id` identifies the original object and
`gen` counts how many clone steps produced this instance. -/
structure Transport where
  id : Nat
  gen : Nat

/-- Model of `Transport::Clone`: an independent new instance with equivalent
configuration. -/
def Transport.Clone (t : Transport) : Transport :=
  { id := t.id, gen := t.gen + 1 }

/-- Session state of `ipfs::Client`: URL prefix, advisory timeout string, and
the owned transport (`none` = the `unique_ptr` is null, e.g. moved-from). -/
structure Client where
  url_prefix_ : String
  timeout_value_ : String
  http_ : Option Transport

/-- Model of the main constructor: the URL prefix is
`protocol + host + ":" + std::to_string(port) + apiPath`, the timeout string
is stored, and a fresh transport `t` is owned. -/
def Client.construct (host : String) (port : Int) (timeout protocol apiPath : String)
    (t : Transport) : Client :=
  { url_prefix_ := protocol ++ host ++ ":" ++ toString port ++ apiPath
    timeout_value_ := timeout
    http_ := some t }

/-- Model of the copy constructor: copies prefix and timeout and deep-clones
the other session's transport when present. -/
def Client.copyCtor (other : Client) : Client :=
  { url_prefix_ := other.url_prefix_
    timeout_value_ := other.timeout_value_
    http_ := other.http_.map Transport.Clone }

/-- Model of the move constructor, yielding the moved-to session.  Its
initializer list moves only `url_prefix_` and `http_`; `timeout_value_` is
not mentioned, so the moved-to member is default-initialized to the empty
string.  The other session's transport pointer is transferred (left null). -/
def Client.moveCtor (other : Client) : Client :=
  { url_prefix_ := other.url_prefix_
    timeout_value_ := ""
    http_ := other.http_ }

/-- Model of copy assignment.  `selfAlias` models the `this == &other`
pointer check, which the state-only embedding cannot express otherwise; when
it is true the two arguments are necessarily the same session.  Results:
the assigned-to state, the number of `Clone()` calls performed, and the
number of transport instances destroyed (`http_ = nullptr` frees the old
one on the non-self path). -/
def Client.copyAssign (self other : Client) (selfAlias : Bool) : Client × Nat × Nat :=
  if selfAlias then (self, 0, 0)
  else
    ({ url_prefix_ := other.url_prefix_
       timeout_value_ := other.timeout_value_
       http_ := other.http_.map Transport.Clone },
     (if other.http_.isSome then 1 else 0),
     (if self.http_.isSome then 1 else 0))

/-- Model of move assignment: the assigned-to state, the moved-from state of
the other session, and the number of transport instances destroyed (moving
into `http_` frees the previously owned transport on the non-self path). -/
def Client.moveAssign (self other : Client) (selfAlias : Bool) : Client × Client × Nat :=
  if selfAlias then (self, other, 0)
  else
    ({ url_prefix_ := other.url_prefix_
       timeout_value_ := other.timeout_value_
       http_ := other.http_ },
     { url_prefix_ := "", timeout_value_ := "", http_ := none },
     (if self.http_.isSome then 1 else 0))

/-- URL built by a session for a path and parameter list. -/
def Client.makeUrl (c : Client) (enc : String → String) (path : String)
    (ps : List (String × String)) : String :=
  MakeUrl c.url_prefix_ c.timeout_value_ enc path ps

/-- URL issued by `Client::ConfigGet`: `config/show` without parameters for
an empty key, `config` with the key as `arg` otherwise. -/
def ConfigGetUrl (c : Client) (enc : String → String) (key : String) : String :=
  if key = "" then c.makeUrl enc "config/show" []
  else c.makeUrl enc "config" [("arg", key)]

/-- Reshape performed by `Client::ConfigGet` on the parsed reply: the reply
itself for an empty key, otherwise the `Value` property extracted with
`GetProperty` (line number 0). -/
def ConfigGetReshape (key : String) (reply : Json) : Except Err Json :=
  if key = "" then .ok reply else GetPropertyJson reply "Value" 0

/-- Inner loop of `Client::DhtFindPeer` over one line's `Responses` array:
finds the first entry whose `ID` compares equal to the peer id (the C++
`r["ID"] == peer_id` is true exactly when the field is that string) and
yields its `Addrs` value; `none` when no entry of this line matches. -/
def checkResponses (peer_id : String) : List Json → Except Err (Option Json)
  | [] => .ok none
  | r :: rest =>
    match r.bracket "ID" with
    | .error e => .error e
    | .ok (.str s) =>
      if s = peer_id then
        match r.bracket "Addrs" with
        | .error e => .error e
        | .ok addrs => .ok (some addrs)
      else checkResponses peer_id rest
    | .ok _ => checkResponses peer_id rest

/-- Line loop of `Client::DhtFindPeer`: parse each line, skip lines whose
`Responses` member is not an array, return the matching entry's address
list, and throw the not-found `runtime_error` (carrying the peer id and the
full raw body) when the lines are exhausted. -/
def DhtFindPeerGo (parse : String → Option Json) (peer_id body : String) :
    List String → Except Err Json
  | [] => .error (.notFound peer_id body)
  | l :: ls =>
    match parse l with
    | none => .error (.malformed l)
    | some j =>
      match j.bracket "Responses" with
      | .error e => .error e
      | .ok (.arr rs) =>
        match checkResponses peer_id rs with
        | .error e => .error e
        | .ok (some addrs) => .ok addrs
        | .ok none => DhtFindPeerGo parse peer_id body ls
      | .ok _ => DhtFindPeerGo parse peer_id body ls

/-- Model of `Client::DhtFindPeer` after the fetch, acting on the raw body. -/
def DhtFindPeer (parse : String → Option Json) (peer_id body : String) : Except Err Json :=
  DhtFindPeerGo parse peer_id body (linesOf body)

/-- Line loop of `Client::DhtFindProvs`: parse every line and collect the
values in arrival order; a parse failure on any line aborts the whole
operation with that line's text. -/
def DhtFindProvsGo (parse : String → Option Json) : List String → Except Err (List Json)
  | [] => .ok []
  | l :: ls =>
    match parse l with
    | none => .error (.malformed l)
    | some j =>
      match DhtFindProvsGo parse ls with
      | .error e => .error e
      | .ok vs => .ok (j :: vs)

/-- Model of `Client::DhtFindProvs` after the fetch: the pure line-oriented
decode of the raw body (every parsed line, unmodified, in order). -/
def DhtFindProvs (parse : String → Option Json) (body : String) : Except Err (List Json) :=
  DhtFindProvsGo parse (linesOf body)

/-- Merged record the batch-add loop builds for one logical path: the inner
`temp[path]` object.  `hash`/`size` are absent until some line supplies
them. -/
structure AddRec where
  path : String
  hash : Option Json
  size : Option Json

/-- JSON view of a merged record: a `nlohmann::json` object iterates its
keys in sorted order, and `hash` < `path` < `size` lexicographically. -/
def AddRec.toJson (r : AddRec) : Json :=
  .obj ((match r.hash with | some h => [("hash", h)] | none => []) ++
        [("path", .str r.path)] ++
        (match r.size with | some s => [("size", s)] | none => []))

/-- One iteration's effect on the `temp` map (`std::map<std::string, json>`,
kept in ascending key order): `temp[path]["path"] = path` creates or finds
the entry, and a supplied `Hash`/`Bytes` overwrites the stored one while an
absent one leaves it untouched. -/
def tempInsert : List (String × AddRec) → String → Option Json → Option Json →
    List (String × AddRec)
  | [], p, h, s => [(p, ⟨p, h, s⟩)]
  | (k, r) :: rest, p, h, s =>
    if strLt p k then (p, ⟨p, h, s⟩) :: (k, r) :: rest
    else if p = k then (k, ⟨p, h <|> r.hash, s <|> r.size⟩) :: rest
    else (k, r) :: tempInsert rest p h s

/-- Line loop of `Client::FilesAdd`: the line counter `i` starts at 1; each
line is parsed, its `Name` extracted through `GetProperty` (with the line
number), and the optional `Hash`/`Bytes` fields merged into `temp`. -/
def FilesAddGo (parse : String → Option Json) :
    List String → Nat → List (String × AddRec) → Except Err (List (String × AddRec))
  | [], _, temp => .ok temp
  | l :: ls, i, temp =>
    match parse l with
    | none => .error (.malformed l)
    | some j =>
      match GetPropertyString j "Name" i with
      | .error e => .error e
      | .ok p => FilesAddGo parse ls (i + 1) (tempInsert temp p (j.find "Hash") (j.find "Bytes"))

/-- Model of `Client::FilesAdd` after the fetch: run the merge loop over the
raw body's lines, then emit one record per entry in the map's iteration
order. -/
def FilesAdd (parse : String → Option Json) (body : String) : Except Err Json :=
  match FilesAddGo parse (linesOf body) 1 [] with
  | .error e => .error e
  | .ok temp => .ok (.arr (temp.map fun kv => kv.2.toJson))

/-- Reshape of `Client::KeyGen`: `*generated_key = response["Id"]` reads the
field with `operator[]` (yielding `null` when absent) and converts it to a
string. -/
def KeyGenReshape (response : Json) : Except Err String :=
  match response.bracket "Id" with
  | .error e => .error e
  | .ok v => getToString v

/-- Reshape of `Client::KeyList`: `*key_list = response["Keys"]` reads the
field with `operator[]`, yielding `null` (without failing) when absent. -/
def KeyListReshape (response : Json) : Except Err Json :=
  response.bracket "Keys"

/-- Reshape of `Client::NameResolve`: the `Path` property via
`GetProperty` (line number 0). -/
def NameResolveReshape (response : Json) : Except Err String :=
  GetPropertyString response "Path" 0

/-- Reshape of `Client::NamePublish`: the `Name` property via
`GetProperty` (line number 0). -/
def NamePublishReshape (response : Json) : Except Err String :=
  GetPropertyString response "Name" 0

/-- Reshape of `Client::DagImport`:
`response.at("Root").at("Cid").at("/").get_to(*cid)` — a chain of `at`
lookups, then conversion to string. -/
def DagImportReshape (response : Json) : Except Err String :=
  match response.atKey "Root" with
  | .error e => .error e
  | .ok root =>
    match root.atKey "Cid" with
    | .error e => .error e
    | .ok cid =>
      match cid.atKey "/" with
      | .error e => .error e
      | .ok v => getToString v

/-- Reshape of `Client::DagPut`: `response.at("Cid").at("/").get_to(*cid)`. -/
def DagPutReshape (response : Json) : Except Err String :=
  match response.atKey "Cid" with
  | .error e => .error e
  | .ok cid =>
    match cid.atKey "/" with
    | .error e => .error e
    | .ok v => getToString v

/-- Range-for iteration over a `nlohmann::json` value: an array iterates its
elements, an object its mapped values, `null` is an empty range, and any
other scalar is a one-element range. -/
def iterElems : Json → List Json
  | .arr xs => xs
  | .obj fs => fs.map fun kv => kv.2
  | .null => []
  | v => [v]

/-- Scan loop of `Client::PinAdd` over the `Pins` value:
`for (const std::string pin : pins_array)` converts each element to a
string and compares it with the requested id; `true` when a match is found
before the range ends. -/
def pinScan (object_id : String) : List Json → Except Err Bool
  | [] => .ok false
  | p :: rest =>
    match getToString p with
    | .error e => .error e
    | .ok s => if s = object_id then .ok true else pinScan object_id rest

/-- Model of `Client::PinAdd` after the fetch: extract `Pins` through
`GetProperty`, scan it for the requested id, and throw the verification
`runtime_error` (carrying the id and the full reply) when the id is not
among the pins. -/
def PinAdd (object_id : String) (response : Json) : Except Err Unit :=
  match GetPropertyJson response "Pins" 0 with
  | .error e => .error e
  | .ok pins =>
    match pinScan object_id (iterElems pins) with
    | .error e => .error e
    | .ok true => .ok ()
    | .ok false => .error (.verificationFailed object_id response)

/-- Mode flag of `Client::PinRm`. -/
inductive PinRmOptions where
  | NON_RECURSIVE : PinRmOptions
  | RECURSIVE : PinRmOptions

/-- Parameters `Client::PinRm` passes to `MakeUrl`: the recursive flag is
serialized as the literal strings `true`/`false`. -/
def PinRmParams (object_id : String) (options : PinRmOptions) : List (String × String) :=
  [("arg", object_id),
   ("recursive", match options with | .RECURSIVE => "true" | .NON_RECURSIVE => "false")]

/-- Serialization `std::to_string(pin)` applies to a `bool` argument:
`std::to_string` has no `bool` overload, so the value promotes to `int` and
renders as a decimal digit. -/
def cppToStringBool (b : Bool) : String := toString (if b then (1 : Nat) else 0)

/-- Parameters `Client::DagImport` passes to `MakeUrl`. -/
def DagImportParams (pin : Bool) : List (String × String) :=
  [("pin-roots", cppToStringBool pin)]

/-- Parameters `Client::DagPut` passes to `MakeUrl`. -/
def DagPutParams (pin : Bool) : List (String × String) :=
  [("pin", cppToStringBool pin)]

/-- Concatenation of a list of strings, used to state the URL layout. -/
def concatAll : List String → String
  | [] => ""
  | s :: ss => s ++ concatAll ss

/-- Body text with every line followed by a newline. -/
def strUnlinesT : List String → String
  | [] => ""
  | l :: ls => l ++ "\n" ++ strUnlinesT ls

/-- Body text with the lines separated by newlines and no trailing one. -/
def strUnlinesNT : List String → String
  | [] => ""
  | [l] => l
  | l :: l2 :: ls => l ++ "\n" ++ strUnlinesNT (l2 :: ls)

/-- Values on which the source's `operator[]` succeeds: objects and `null`. -/
def objOrNull : Json → Bool
  | .obj _ => true
  | .null => true
  | _ => false

/-- Entries of a line's `Responses` member when it is an array, else none:
the set of candidate peer entries `DhtFindPeer` scans in this line. -/
def entriesOf (j : Json) : List Json :=
  match j.find "Responses" with
  | some (.arr rs) => rs
  | _ => []

/-- Whether a `Responses` entry matches the requested peer: its `ID` member
is the peer id as a string (the C++ comparison `r["ID"] == peer_id`). -/
def matchesPeer (peer : String) (r : Json) : Bool :=
  match r.find "ID" with
  | some (.str s) => s = peer
  | _ => false

/-- Address list of a `Responses` entry: its `Addrs` member read with
`operator[]` (`null` when absent). -/
def addrsOf (r : Json) : Json :=
  match r.find "Addrs" with
  | some v => v
  | none => .null

theorem concatAll_foldl (enc : String → String) :
    ∀ (l : List (String × String)) (init : String),
      l.foldl (fun u p => u ++ "&" ++ enc p.1 ++ "=" ++ enc p.2) init =
        init ++ concatAll (l.map fun p => "&" ++ enc p.1 ++ "=" ++ enc p.2)
  | [], init => by
    apply String.ext
    simp [concatAll, String.data_append]
  | p :: ps, init => by
    have ih := concatAll_foldl enc ps (init ++ "&" ++ enc p.1 ++ "=" ++ enc p.2)
    apply String.ext
    simp only [List.foldl_cons, List.map_cons, concatAll] at ih ⊢
    rw [ih]
    simp [String.data_append, List.append_assoc]

/-- C4: a built URL is the prefix, `/`, the path, the literal default query
suffix, then one `&name=value` pair per parameter with name and value each
passed through the transport's encoder, in exactly the order supplied; when
the configured timeout string is non-empty exactly one `timeout` parameter
is appended after all caller-supplied ones.  `MakeUrl` is a total function,
so building never fails. -/
theorem makeUrl_structure (url_prefix_ timeout_value_ : String) (enc : String → String)
    (path : String) (ps : List (String × String)) :
    MakeUrl url_prefix_ timeout_value_ enc path ps =
      url_prefix_ ++ "/" ++ path ++ "?stream-channels=true&json=true&encoding=json" ++
      concatAll ((ps ++ (if timeout_value_ = "" then []
                         else [("timeout", timeout_value_)])).map
        (fun p => "&" ++ enc p.1 ++ "=" ++ enc p.2)) := by
  unfold MakeUrl
  exact concatAll_foldl _ _ _

/-- C9: `dag/import` serializes its pin flag as the decimal string `1`/`0`
in the `pin-roots` parameter (via `std::to_string` on the int-promoted
bool), `dag/put` does the same in the `pin` parameter, and these differ
from the literal `true`/`false` strings `pin/rm` uses for its recursive
flag. -/
theorem pin_flag_serializations (pin : Bool) (object_id : String) :
    DagImportParams pin = [("pin-roots", if pin then "1" else "0")] ∧
    DagPutParams pin = [("pin", if pin then "1" else "0")] ∧
    cppToStringBool pin ≠ "true" ∧ cppToStringBool pin ≠ "false" ∧
    PinRmParams object_id PinRmOptions.RECURSIVE =
      [("arg", object_id), ("recursive", "true")] ∧
    PinRmParams object_id PinRmOptions.NON_RECURSIVE =
      [("arg", object_id), ("recursive", "false")] := by
  cases pin <;> exact ⟨rfl, rfl, by decide, by decide, rfl, rfl⟩

/-- C10: self-assignment (copy or move) hits the `this == &other` early
return and leaves the session unchanged — same prefix, timeout and owned
transport — with zero `Clone()` calls and zero transport destructions. -/
theorem selfAssign_leaves_client_unchanged (c : Client) :
    Client.copyAssign c c true = (c, 0, 0) ∧
    Client.moveAssign c c true = (c, c, 0) :=
  ⟨rfl, rfl⟩

/-- Session configured with a 30-second server-side timeout, the failing
input for the move-construction claim. -/
def timeoutClient : Client :=
  Client.construct "localhost" 5001 "30s" "http://" "/api/v0" ⟨0, 0⟩

/-- C1: evaluation at the failing input.  The move constructor's initializer
list omits `timeout_value_`, so the moved-to session's timeout is the empty
string and its URLs lose the `timeout` parameter the original appended,
while move assignment does transfer it. -/
theorem moveCtor_drops_timeout_value :
    timeoutClient.timeout_value_ = "30s" ∧
    (Client.moveCtor timeoutClient).timeout_value_ = "" ∧
    timeoutClient.makeUrl id "version" [] =
      "http://localhost:5001/api/v0/version?stream-channels=true&json=true&encoding=json&timeout=30s" ∧
    (Client.moveCtor timeoutClient).makeUrl id "version" [] =
      "http://localhost:5001/api/v0/version?stream-channels=true&json=true&encoding=json" ∧
    (Client.moveAssign (Client.construct "h" 1 "" "http://" "/x" ⟨1, 0⟩)
        timeoutClient false).1.makeUrl id "version" [] =
      "http://localhost:5001/api/v0/version?stream-channels=true&json=true&encoding=json&timeout=30s" :=
  ⟨rfl, rfl, rfl, rfl, rfl⟩

/-- C3: counterexample to the single-choke-point claim.  On an otherwise
well-formed empty object reply, key listing's `Keys` extraction returns
normally with `null` (no failure at all), key generation's `Id` extraction
fails with a string-conversion type error, and the dag import/put nested
extractions fail with `at()` key-not-found errors — none of them is the
MissingField failure `GetProperty` raises. -/
theorem field_extraction_not_uniform :
    KeyListReshape (.obj []) = .ok .null ∧
    KeyGenReshape (.obj []) = .error (.typeError "type must be string") ∧
    DagImportReshape (.obj []) = .error (.keyNotFound "Root") ∧
    DagPutReshape (.obj []) = .error (.keyNotFound "Cid") :=
  ⟨rfl, rfl, rfl, rfl⟩

/-- Parse oracle standing for `nlohmann::json::parse` on the four reply
lines of the batch-add example documented in the source (`foo.txt` seen
first, then `bar.txt`). -/
def addReplyParse : String → Option Json := fun s =>
  if s = "line1" then some (.obj [("Bytes", .num 4), ("Name", .str "foo.txt")])
  else if s = "line2" then some (.obj [("Hash", .str "QmWP"), ("Name", .str "foo.txt")])
  else if s = "line3" then some (.obj [("Bytes", .num 1176), ("Name", .str "bar.txt")])
  else if s = "line4" then some (.obj [("Hash", .str "QmVj"), ("Name", .str "bar.txt")])
  else none

/-- C2: evaluation at the failing input.  On the reply documented in the
source (two progress lines for `foo.txt` followed by two for `bar.txt`),
the records are correctly merged by name, but the result lists `bar.txt`
before `foo.txt`: the `temp` map is a `std::map` iterated in ascending key
order, not in the order each distinct name was first seen, contradicting
the order the claim (and the source's own comment and test) state. -/
theorem filesAdd_emission_order_is_sorted :
    FilesAdd addReplyParse "line1\nline2\nline3\nline4\n" =
      .ok (.arr
        [.obj [("hash", .str "QmVj"), ("path", .str "bar.txt"), ("size", .num 1176)],
         .obj [("hash", .str "QmWP"), ("path", .str "foo.txt"), ("size", .num 4)]]) :=
  rfl

theorem getlinesAux_no_newline : ∀ (l acc : List Char), '\n' ∉ l →
    getlinesAux l acc = [acc.reverse ++ l]
  | [], acc, _ => by simp [getlinesAux]
  | c :: cs, acc, h => by
    have hc : ¬ c = '\n' := fun hh => h (hh ▸ List.mem_cons_self c cs)
    have hcs : '\n' ∉ cs := fun hm => h (List.mem_cons_of_mem c hm)
    unfold getlinesAux
    rw [if_neg hc, getlinesAux_no_newline cs (c :: acc) hcs]
    simp

theorem getlinesAux_newline_split : ∀ (l rest acc : List Char), '\n' ∉ l →
    getlinesAux (l ++ '\n' :: rest) acc = (acc.reverse ++ l) :: getlines rest
  | [], rest, acc, _ => by
    show getlinesAux ('\n' :: rest) acc = (acc.reverse ++ []) :: getlines rest
    unfold getlinesAux
    rw [if_pos rfl]
    cases rest with
    | nil => simp [getlines]
    | cons c2 cs2 => simp [getlines]
  | c :: cs, rest, acc, h => by
    have hc : ¬ c = '\n' := fun hh => h (hh ▸ List.mem_cons_self c cs)
    have hcs : '\n' ∉ cs := fun hm => h (List.mem_cons_of_mem c hm)
    show getlinesAux (c :: (cs ++ '\n' :: rest)) acc = _
    unfold getlinesAux
    rw [if_neg hc, getlinesAux_newline_split cs rest (c :: acc) hcs]
    simp

theorem getlines_eq_aux (cs : List Char) (h : cs ≠ []) : getlines cs = getlinesAux cs [] := by
  cases cs with
  | nil => exact absurd rfl h
  | cons c cs => rfl

theorem getlines_split (l rest : List Char) (h : '\n' ∉ l) :
    getlines (l ++ '\n' :: rest) = l :: getlines rest := by
  rw [getlines_eq_aux _ (by cases l <;> simp), getlinesAux_newline_split l rest [] h]
  simp

theorem getlines_no_newline (l : List Char) (h : '\n' ∉ l) (hne : l ≠ []) :
    getlines l = [l] := by
  rw [getlines_eq_aux l hne, getlinesAux_no_newline l [] h]
  simp

theorem data_append_newline (l rest : String) :
    (l ++ "\n" ++ rest).data = l.data ++ '\n' :: rest.data := by
  simp [String.data_append]

theorem linesOf_append_newline (l rest : String) (h : '\n' ∉ l.data) :
    linesOf (l ++ "\n" ++ rest) = l :: linesOf rest := by
  unfold linesOf
  rw [data_append_newline, getlines_split _ _ h, List.map_cons]

theorem linesOf_single_newline (l : String) (h : '\n' ∉ l.data) :
    linesOf (l ++ "\n") = [l] := by
  have : (l ++ "\n").data = l.data ++ '\n' :: ([] : List Char) := by
    simp [String.data_append]
  unfold linesOf
  rw [this, getlines_split _ _ h]
  rfl

theorem linesOf_strUnlinesT : ∀ (ls : List String), (∀ l ∈ ls, '\n' ∉ l.data) →
    linesOf (strUnlinesT ls) = ls
  | [], _ => rfl
  | l :: ls, h => by
    have h1 : '\n' ∉ l.data := h l (List.mem_cons_self l ls)
    have h2 : ∀ x ∈ ls, '\n' ∉ x.data := fun x hx => h x (List.mem_cons_of_mem l hx)
    show linesOf (l ++ "\n" ++ strUnlinesT ls) = l :: ls
    rw [linesOf_append_newline _ _ h1, linesOf_strUnlinesT ls h2]

theorem linesOf_strUnlinesNT : ∀ (ls : List String), (∀ l ∈ ls, '\n' ∉ l.data) →
    ls.getLast? ≠ some "" → linesOf (strUnlinesNT ls) = ls
  | [], _, _ => rfl
  | [l], h, hlast => by
    have h1 : '\n' ∉ l.data := h l (List.mem_cons_self l [])
    have hne : l ≠ "" := by
      intro hh
      exact hlast (by rw [hh]; rfl)
    have hdne : l.data ≠ [] := fun hd => hne (String.ext hd)
    show linesOf l = [l]
    unfold linesOf
    rw [getlines_no_newline l.data h1 hdne]
    rfl
  | l :: l2 :: ls, h, hlast => by
    have h1 : '\n' ∉ l.data := h l (List.mem_cons_self l (l2 :: ls))
    have h2 : ∀ x ∈ l2 :: ls, '\n' ∉ x.data := fun x hx => h x (List.mem_cons_of_mem l hx)
    have hlast2 : (l2 :: ls).getLast? ≠ some "" := by
      rwa [List.getLast?_cons_cons] at hlast
    show linesOf (l ++ "\n" ++ strUnlinesNT (l2 :: ls)) = l :: l2 :: ls
    rw [linesOf_append_newline _ _ h1, linesOf_strUnlinesNT (l2 :: ls) h2 hlast2]

/-- C8: config-get with an empty key issues the `config/show` request and
returns the parsed document unmodified; with a non-empty key it issues the
`config` request with the key as the `arg` parameter and returns only the
reply's nested `Value` field. -/
theorem configGet_key_dispatch (c : Client) (enc : String → String) (key : String)
    (reply : Json) :
    (key = "" →
      ConfigGetUrl c enc key = c.makeUrl enc "config/show" [] ∧
      ConfigGetReshape key reply = .ok reply) ∧
    (key ≠ "" →
      ConfigGetUrl c enc key = c.makeUrl enc "config" [("arg", key)] ∧
      ∀ v, reply.find "Value" = some v → ConfigGetReshape key reply = .ok v) := by
  constructor
  · intro h
    subst h
    exact ⟨rfl, rfl⟩
  · intro h
    refine ⟨?_, ?_⟩
    · unfold ConfigGetUrl
      rw [if_neg h]
    · intro v hv
      unfold ConfigGetReshape
      rw [if_neg h]
      unfold GetPropertyJson
      rw [hv]

/-- Reply of the specification's `config/get` example. -/
def datastoreReply : Json :=
  .obj [("Key", .str "Datastore"), ("Value", .obj [("GCPeriod", .str "1h")])]

/-- Witness for `configGet_key_dispatch` at the specification's example. -/
theorem configGet_key_dispatch_witness :
    (ConfigGetUrl ⟨"http://x:1/api/v0", "", none⟩ id "" =
       Client.makeUrl ⟨"http://x:1/api/v0", "", none⟩ id "config/show" [] ∧
     ConfigGetReshape "" datastoreReply = .ok datastoreReply) ∧
    (ConfigGetUrl ⟨"http://x:1/api/v0", "", none⟩ id "Datastore" =
       Client.makeUrl ⟨"http://x:1/api/v0", "", none⟩ id "config" [("arg", "Datastore")] ∧
     ConfigGetReshape "Datastore" datastoreReply = .ok (.obj [("GCPeriod", .str "1h")])) := by
  constructor
  · exact (configGet_key_dispatch ⟨"http://x:1/api/v0", "", none⟩ id "" datastoreReply).1 rfl
  · have h := (configGet_key_dispatch ⟨"http://x:1/api/v0", "", none⟩ id "Datastore"
      datastoreReply).2 (by decide)
    exact ⟨h.1, h.2 _ rfl⟩

theorem pinScan_strings (object_id : String) :
    ∀ (pins : List Json), (∀ p ∈ pins, ∃ s, p = Json.str s) →
      (pinScan object_id pins = .ok true ↔ Json.str object_id ∈ pins) ∧
      (Json.str object_id ∉ pins → pinScan object_id pins = .ok false)
  | [], _ => by
    constructor
    · constructor
      · intro h
        exact absurd h (by simp [pinScan])
      · intro h
        exact absurd h (List.not_mem_nil _)
    · intro _
      rfl
  | p :: rest, hstr => by
    have ih := pinScan_strings object_id rest
      (fun q hq => hstr q (List.mem_cons_of_mem p hq))
    obtain ⟨s, rfl⟩ := hstr p (List.mem_cons_self p rest)
    by_cases hs : s = object_id
    · constructor
      · have hstep2 : pinScan object_id (Json.str s :: rest) = .ok true := by
          simp [pinScan, getToString, hs]
        rw [hstep2]
        simp [List.mem_cons, hs]
      · intro hmem
        apply absurd _ hmem
        rw [← hs]
        exact List.mem_cons_self _ _
    · have hstep : pinScan object_id (Json.str s :: rest) = pinScan object_id rest := by
        simp [pinScan, getToString, hs]
      constructor
      · rw [hstep, ih.1]
        constructor
        · intro h
          exact List.mem_cons_of_mem _ h
        · intro h
          rcases List.mem_cons.mp h with h1 | h1
          · exact absurd (Json.str.inj h1.symm) hs
          · exact h1
      · intro hmem
        rw [hstep]
        exact ih.2 (fun hm => hmem (List.mem_cons_of_mem _ hm))

/-- C6: for a well-formed pin-add reply whose `Pins` field is an array of
strings, the operation returns normally exactly when the requested id is in
that array, and otherwise fails with the verification error carrying the
requested id and the full reply. -/
theorem pinAdd_verifies_requested_pin (object_id : String) (response : Json)
    (pins : List Json)
    (hfind : response.find "Pins" = some (.arr pins))
    (hstr : ∀ p ∈ pins, ∃ s, p = Json.str s) :
    (PinAdd object_id response = .ok () ↔ Json.str object_id ∈ pins) ∧
    (Json.str object_id ∉ pins →
      PinAdd object_id response = .error (.verificationFailed object_id response)) := by
  have hget : GetPropertyJson response "Pins" 0 = .ok (.arr pins) := by
    unfold GetPropertyJson
    rw [hfind]
  have hscan := pinScan_strings object_id pins hstr
  have hstep : PinAdd object_id response =
      (match pinScan object_id pins with
       | .error e => Except.error e
       | .ok true => .ok ()
       | .ok false => .error (.verificationFailed object_id response)) := by
    simp only [PinAdd, hget, iterElems]
  rw [hstep]
  by_cases hm : Json.str object_id ∈ pins
  · rw [hscan.1.mpr hm]
    simp [hm]
  · rw [hscan.2 hm]
    simp [hm]

/-- Reply of the pin-add scenario: one pinned id `Qm1`. -/
def pinsReply : Json := .obj [("Pins", .arr [.str "Qm1"])]

/-- Witness for `pinAdd_verifies_requested_pin`: the pinned id is accepted,
a different id fails verification. -/
theorem pinAdd_verifies_requested_pin_witness :
    (PinAdd "Qm1" pinsReply = .ok () ↔ Json.str "Qm1" ∈ [Json.str "Qm1"]) ∧
    PinAdd "Qm2" pinsReply = .error (.verificationFailed "Qm2" pinsReply) := by
  have hstr : ∀ p ∈ [Json.str "Qm1"], ∃ s, p = Json.str s := by
    intro p hp
    rw [List.mem_singleton] at hp
    exact ⟨"Qm1", hp⟩
  constructor
  · exact (pinAdd_verifies_requested_pin "Qm1" pinsReply [.str "Qm1"] rfl hstr).1
  · refine (pinAdd_verifies_requested_pin "Qm2" pinsReply [.str "Qm1"] rfl hstr).2 ?_
    intro h
    rw [List.mem_singleton] at h
    exact absurd (Json.str.inj h) (by decide)

/-- C3 (amended): the reshapes that go through `GetProperty` — config get's
`Value`, name resolve's `Path`, name publish's `Name`, pin add's `Pins`,
and batch add's `Name` (the latter with the NDJSON line number) — fail with
a MissingField error naming the field when it is absent; but key
generation's `Id` is read with `operator[]` and its absence surfaces as a
string-conversion type error, key listing's `Keys` is read with
`operator[]` and its absence yields a `null` result with no failure at all,
and the nested `Root.Cid./` and `Cid./` extractions of dag import and dag
put use `at()` and fail with key-not-found errors, not MissingField. -/
theorem field_extraction_per_endpoint (j : Json) (key : String) (i : Nat) :
    (key ≠ "" → j.find "Value" = none →
      ConfigGetReshape key j = .error (.missingField "Value" 0 j)) ∧
    (j.find "Path" = none →
      NameResolveReshape j = .error (.missingField "Path" 0 j)) ∧
    (j.find "Name" = none →
      NamePublishReshape j = .error (.missingField "Name" 0 j)) ∧
    (j.find "Pins" = none →
      ∀ oid, PinAdd oid j = .error (.missingField "Pins" 0 j)) ∧
    (j.find "Name" = none →
      GetPropertyString j "Name" i = .error (.missingField "Name" i j)) ∧
    (j.find "Name" = none → ∀ (parse : String → Option Json) (l : String),
      parse l = some j → '\n' ∉ l.data →
      FilesAdd parse (l ++ "\n") = .error (.missingField "Name" 1 j)) ∧
    (objOrNull j = true → j.find "Id" = none →
      KeyGenReshape j = .error (.typeError "type must be string")) ∧
    (objOrNull j = true → j.find "Keys" = none → KeyListReshape j = .ok .null) ∧
    ((∃ fs, j = .obj fs) → j.find "Root" = none →
      DagImportReshape j = .error (.keyNotFound "Root")) ∧
    ((∃ fs, j = .obj fs) → j.find "Cid" = none →
      DagPutReshape j = .error (.keyNotFound "Cid")) := by
  have hbracket : ∀ (k : String), objOrNull j = true → j.find k = none →
      Json.bracket j k = .ok .null := by
    intro k hobj hf
    cases j with
    | null => rfl
    | obj fs =>
      simp only [Json.find] at hf
      simp only [Json.bracket, hf]
    | bool b => exact absurd hobj (by simp [objOrNull])
    | num n => exact absurd hobj (by simp [objOrNull])
    | str s => exact absurd hobj (by simp [objOrNull])
    | arr xs => exact absurd hobj (by simp [objOrNull])
  refine ⟨?_, ?_, ?_, ?_, ?_, ?_, ?_, ?_, ?_, ?_⟩
  · intro hk hf
    unfold ConfigGetReshape
    rw [if_neg hk]
    unfold GetPropertyJson
    rw [hf]
  · intro hf
    unfold NameResolveReshape GetPropertyString
    rw [hf]
  · intro hf
    unfold NamePublishReshape GetPropertyString
    rw [hf]
  · intro hf oid
    unfold PinAdd GetPropertyJson
    rw [hf]
  · intro hf
    unfold GetPropertyString
    rw [hf]
  · intro hf parse l hp hnl
    have hget : GetPropertyString j "Name" 1 = .error (.missingField "Name" 1 j) := by
      unfold GetPropertyString
      rw [hf]
    have hgo : FilesAddGo parse [l] 1 [] = .error (.missingField "Name" 1 j) := by
      simp only [FilesAddGo, hp, hget]
    unfold FilesAdd
    rw [linesOf_single_newline l hnl, hgo]
  · intro hobj hf
    unfold KeyGenReshape
    rw [hbracket "Id" hobj hf]
    rfl
  · intro hobj hf
    unfold KeyListReshape
    exact hbracket "Keys" hobj hf
  · rintro ⟨fs, rfl⟩ hf
    simp only [Json.find] at hf
    unfold DagImportReshape
    simp only [Json.atKey, hf]
  · rintro ⟨fs, rfl⟩ hf
    simp only [Json.find] at hf
    unfold DagPutReshape
    simp only [Json.atKey, hf]

/-- Parse oracle mapping one line to an object that lacks every field the
endpoints extract. -/
def emptyObjParse : String → Option Json := fun s =>
  if s = "lineE" then some (.obj [("Other", .num 7)]) else none

/-- Witness for `field_extraction_per_endpoint` at an object lacking all the
extracted fields. -/
theorem field_extraction_per_endpoint_witness :
    ConfigGetReshape "k" (.obj [("Other", .num 7)]) =
      .error (.missingField "Value" 0 (.obj [("Other", .num 7)])) ∧
    NameResolveReshape (.obj [("Other", .num 7)]) =
      .error (.missingField "Path" 0 (.obj [("Other", .num 7)])) ∧
    NamePublishReshape (.obj [("Other", .num 7)]) =
      .error (.missingField "Name" 0 (.obj [("Other", .num 7)])) ∧
    PinAdd "Qm1" (.obj [("Other", .num 7)]) =
      .error (.missingField "Pins" 0 (.obj [("Other", .num 7)])) ∧
    GetPropertyString (.obj [("Other", .num 7)]) "Name" 5 =
      .error (.missingField "Name" 5 (.obj [("Other", .num 7)])) ∧
    FilesAdd emptyObjParse ("lineE" ++ "\n") =
      .error (.missingField "Name" 1 (.obj [("Other", .num 7)])) ∧
    KeyGenReshape (.obj [("Other", .num 7)]) = .error (.typeError "type must be string") ∧
    KeyListReshape (.obj [("Other", .num 7)]) = .ok .null ∧
    DagImportReshape (.obj [("Other", .num 7)]) = .error (.keyNotFound "Root") ∧
    DagPutReshape (.obj [("Other", .num 7)]) = .error (.keyNotFound "Cid") := by
  have h := field_extraction_per_endpoint (.obj [("Other", .num 7)]) "k" 5
  exact ⟨h.1 (by decide) rfl, h.2.1 rfl, h.2.2.1 rfl, h.2.2.2.1 rfl "Qm1",
    h.2.2.2.2.1 rfl, h.2.2.2.2.2.1 rfl emptyObjParse "lineE" rfl (by decide),
    h.2.2.2.2.2.2.1 rfl rfl, h.2.2.2.2.2.2.2.1 rfl rfl,
    h.2.2.2.2.2.2.2.2.1 ⟨_, rfl⟩ rfl, h.2.2.2.2.2.2.2.2.2 ⟨_, rfl⟩ rfl⟩

/-- Successful parse of every line, in order (`nlohmann::json::parse` applied
line by line with no failure). -/
def parseAll (parse : String → Option Json) : List String → Option (List Json)
  | [] => some []
  | l :: ls =>
    match parse l with
    | none => none
    | some j =>
      match parseAll parse ls with
      | none => none
      | some vs => some (j :: vs)

theorem provsGo_all_parsed (parse : String → Option Json) :
    ∀ (ls : List String) (vs : List Json), parseAll parse ls = some vs →
      DhtFindProvsGo parse ls = .ok vs
  | [], vs, h => by
    simp only [parseAll, Option.some.injEq] at h
    rw [← h]
    rfl
  | l :: ls, vs, h => by
    cases hp : parse l with
    | none => simp [parseAll, hp] at h
    | some j =>
      cases hm : parseAll parse ls with
      | none => simp [parseAll, hp, hm] at h
      | some vs' =>
        simp only [parseAll, hp, hm, Option.some.injEq] at h
        rw [← h]
        have ih := provsGo_all_parsed parse ls vs' hm
        simp only [DhtFindProvsGo, hp, ih]

theorem provsGo_first_bad (parse : String → Option Json) :
    ∀ (pre : List String) (l : String) (post : List String),
      (∀ p ∈ pre, (parse p).isSome) → parse l = none →
      DhtFindProvsGo parse (pre ++ l :: post) = .error (.malformed l)
  | [], l, post, _, hl => by
    show DhtFindProvsGo parse (l :: post) = _
    simp only [DhtFindProvsGo, hl]
  | p :: pre, l, post, hpre, hl => by
    obtain ⟨j, hj⟩ := Option.isSome_iff_exists.mp (hpre p (List.mem_cons_self p pre))
    have ih := provsGo_first_bad parse pre l post
      (fun x hx => hpre x (List.mem_cons_of_mem p hx)) hl
    show DhtFindProvsGo parse (p :: (pre ++ l :: post)) = _
    simp only [DhtFindProvsGo, hj, ih]

/-- C7: line-oriented decoding (the `getline` + `ParseJson` + collect loop of
`DhtFindProvs`) yields one parsed value per newline-separated line in
original order; an empty body yields the empty sequence; a body whose last
line lacks the trailing newline still has that line parsed; and any line the
parser rejects — blank lines included, since they are split off and handed
to the parser like any other line — fails the whole decode with that line's
text in the error. -/
theorem decode_lines_spec (parse : String → Option Json) (ls : List String)
    (hnl : ∀ l ∈ ls, '\n' ∉ l.data) :
    DhtFindProvs parse "" = .ok [] ∧
    (∀ vs, parseAll parse ls = some vs →
      DhtFindProvs parse (strUnlinesT ls) = .ok vs) ∧
    (ls.getLast? ≠ some "" → ∀ vs, parseAll parse ls = some vs →
      DhtFindProvs parse (strUnlinesNT ls) = .ok vs) ∧
    (∀ pre l post, ls = pre ++ l :: post → (∀ p ∈ pre, (parse p).isSome) →
      parse l = none →
      DhtFindProvs parse (strUnlinesT ls) = .error (.malformed l)) := by
  refine ⟨rfl, ?_, ?_, ?_⟩
  · intro vs h
    unfold DhtFindProvs
    rw [linesOf_strUnlinesT ls hnl]
    exact provsGo_all_parsed parse ls vs h
  · intro hlast vs h
    unfold DhtFindProvs
    rw [linesOf_strUnlinesNT ls hnl hlast]
    exact provsGo_all_parsed parse ls vs h
  · intro pre l post hdecomp hpre hl
    unfold DhtFindProvs
    rw [linesOf_strUnlinesT ls hnl, hdecomp]
    exact provsGo_first_bad parse pre l post hpre hl

/-- Parse oracle for the line-decode scenario: two recognized lines, all
other line texts (blank lines included) rejected. -/
def provsParse : String → Option Json := fun s =>
  if s = "lineA" then some (.num 1) else if s = "lineB" then some (.num 2) else none

/-- Witness for `decode_lines_spec`: both well-formed bodies (with and
without trailing newline) decode to one value per line in order, and a body
with an unparseable middle line fails with that line's text. -/
theorem decode_lines_spec_witness :
    DhtFindProvs provsParse (strUnlinesT ["lineA", "lineB"]) = .ok [.num 1, .num 2] ∧
    DhtFindProvs provsParse (strUnlinesNT ["lineA", "lineB"]) = .ok [.num 1, .num 2] ∧
    DhtFindProvs provsParse (strUnlinesT ["lineA", "bad", "lineB"]) =
      .error (.malformed "bad") := by
  refine ⟨?_, ?_, ?_⟩
  · exact (decode_lines_spec provsParse ["lineA", "lineB"] (by decide)).2.1
      [.num 1, .num 2] rfl
  · exact (decode_lines_spec provsParse ["lineA", "lineB"] (by decide)).2.2.1
      (by decide) [.num 1, .num 2] rfl
  · exact (decode_lines_spec provsParse ["lineA", "bad", "lineB"] (by decide)).2.2.2
      ["lineA"] "bad" ["lineB"] rfl (by decide) rfl

theorem checkResponses_cons_no_match (peer : String) (r : Json) (rest : List Json)
    (hobj : objOrNull r = true) (hm : matchesPeer peer r = false) :
    checkResponses peer (r :: rest) = checkResponses peer rest := by
  cases r with
  | null => rfl
  | obj fs =>
    simp only [matchesPeer, Json.find] at hm
    cases hf : lookupField fs "ID" with
    | none => simp only [checkResponses, Json.bracket, hf]
    | some v =>
      rw [hf] at hm
      cases v with
      | str s =>
        simp only at hm
        have hne : ¬ s = peer := of_decide_eq_false hm
        simp only [checkResponses, Json.bracket, hf]
        rw [if_neg hne]
      | null => simp only [checkResponses, Json.bracket, hf]
      | bool b => simp only [checkResponses, Json.bracket, hf]
      | num n => simp only [checkResponses, Json.bracket, hf]
      | arr xs => simp only [checkResponses, Json.bracket, hf]
      | obj gs => simp only [checkResponses, Json.bracket, hf]
  | bool b => exact absurd hobj (by simp [objOrNull])
  | num n => exact absurd hobj (by simp [objOrNull])
  | str s => exact absurd hobj (by simp [objOrNull])
  | arr xs => exact absurd hobj (by simp [objOrNull])

theorem checkResponses_no_match (peer : String) :
    ∀ (rs : List Json), (∀ x ∈ rs, objOrNull x = true) →
      (∀ x ∈ rs, matchesPeer peer x = false) →
      checkResponses peer rs = .ok none
  | [], _, _ => rfl
  | x :: rs, hobj, hnm => by
    rw [checkResponses_cons_no_match peer x rs (hobj x (List.mem_cons_self x rs))
      (hnm x (List.mem_cons_self x rs))]
    exact checkResponses_no_match peer rs
      (fun y hy => hobj y (List.mem_cons_of_mem x hy))
      (fun y hy => hnm y (List.mem_cons_of_mem x hy))

theorem checkResponses_cons_match (peer : String) (r : Json) (rest : List Json)
    (hm : matchesPeer peer r = true) :
    checkResponses peer (r :: rest) = .ok (some (addrsOf r)) := by
  cases r with
  | obj fs =>
    simp only [matchesPeer, Json.find] at hm
    cases hf : lookupField fs "ID" with
    | none => rw [hf] at hm; simp at hm
    | some v =>
      rw [hf] at hm
      cases v with
      | str s =>
        simp only at hm
        have hs : s = peer := of_decide_eq_true hm
        simp only [checkResponses, Json.bracket, hf]
        rw [if_pos hs]
        cases ha : lookupField fs "Addrs" with
        | none => simp only [Json.bracket, ha, addrsOf, Json.find]
        | some a => simp only [Json.bracket, ha, addrsOf, Json.find]
      | null => simp at hm
      | bool b => simp at hm
      | num n => simp at hm
      | arr xs => simp at hm
      | obj gs => simp at hm
  | null => simp [matchesPeer, Json.find] at hm
  | bool b => simp [matchesPeer, Json.find] at hm
  | num n => simp [matchesPeer, Json.find] at hm
  | str s => simp [matchesPeer, Json.find] at hm
  | arr xs => simp [matchesPeer, Json.find] at hm

theorem checkResponses_split (peer : String) :
    ∀ (rs1 : List Json), (∀ x ∈ rs1, objOrNull x = true) →
      (∀ x ∈ rs1, matchesPeer peer x = false) →
      ∀ (r : Json) (rs2 : List Json), matchesPeer peer r = true →
      checkResponses peer (rs1 ++ r :: rs2) = .ok (some (addrsOf r))
  | [], _, _ => fun r rs2 hm => checkResponses_cons_match peer r rs2 hm
  | x :: rs1, hobj, hnm => fun r rs2 hm => by
    show checkResponses peer (x :: (rs1 ++ r :: rs2)) = _
    rw [checkResponses_cons_no_match peer x _ (hobj x (List.mem_cons_self x rs1))
      (hnm x (List.mem_cons_self x rs1))]
    exact checkResponses_split peer rs1
      (fun y hy => hobj y (List.mem_cons_of_mem x hy))
      (fun y hy => hnm y (List.mem_cons_of_mem x hy)) r rs2 hm

theorem findPeerGo_cons_skip (parse : String → Option Json) (peer body l : String)
    (ls : List String) (j : Json) (hp : parse l = some j)
    (hobj : objOrNull j = true)
    (hents : ∀ r ∈ entriesOf j, objOrNull r = true)
    (hnm : ∀ r ∈ entriesOf j, matchesPeer peer r = false) :
    DhtFindPeerGo parse peer body (l :: ls) = DhtFindPeerGo parse peer body ls := by
  cases j with
  | null => simp only [DhtFindPeerGo, hp, Json.bracket]
  | obj fs =>
    cases hf : lookupField fs "Responses" with
    | none => simp only [DhtFindPeerGo, hp, Json.bracket, hf]
    | some v =>
      cases v with
      | arr rs =>
        have hrs : entriesOf (.obj fs) = rs := by simp only [entriesOf, Json.find, hf]
        rw [hrs] at hents hnm
        have hchk := checkResponses_no_match peer rs hents hnm
        simp only [DhtFindPeerGo, hp, Json.bracket, hf, hchk]
      | null => simp only [DhtFindPeerGo, hp, Json.bracket, hf]
      | bool b => simp only [DhtFindPeerGo, hp, Json.bracket, hf]
      | num n => simp only [DhtFindPeerGo, hp, Json.bracket, hf]
      | str s => simp only [DhtFindPeerGo, hp, Json.bracket, hf]
      | obj gs => simp only [DhtFindPeerGo, hp, Json.bracket, hf]
  | bool b => exact absurd hobj (by simp [objOrNull])
  | num n => exact absurd hobj (by simp [objOrNull])
  | str s => exact absurd hobj (by simp [objOrNull])
  | arr xs => exact absurd hobj (by simp [objOrNull])

theorem findPeerGo_cons_found (parse : String → Option Json) (peer body l : String)
    (ls : List String) (j : Json) (hp : parse l = some j)
    (rs1 : List Json) (r : Json) (rs2 : List Json)
    (hsplit : entriesOf j = rs1 ++ r :: rs2)
    (hobj1 : ∀ x ∈ rs1, objOrNull x = true)
    (hnm1 : ∀ x ∈ rs1, matchesPeer peer x = false)
    (hm : matchesPeer peer r = true) :
    DhtFindPeerGo parse peer body (l :: ls) = .ok (addrsOf r) := by
  cases j with
  | obj fs =>
    cases hf : lookupField fs "Responses" with
    | none =>
      simp only [entriesOf, Json.find, hf] at hsplit
      exact (List.cons_ne_nil r rs2 (List.append_eq_nil.mp hsplit.symm).2).elim
    | some v =>
      cases v with
      | arr rs =>
        have hrs : entriesOf (.obj fs) = rs := by simp only [entriesOf, Json.find, hf]
        rw [hrs] at hsplit
        have hchk := checkResponses_split peer rs1 hobj1 hnm1 r rs2 hm
        rw [← hsplit] at hchk
        simp only [DhtFindPeerGo, hp, Json.bracket, hf, hchk]
      | null =>
        simp only [entriesOf, Json.find, hf] at hsplit
        exact (List.cons_ne_nil r rs2 (List.append_eq_nil.mp hsplit.symm).2).elim
      | bool b =>
        simp only [entriesOf, Json.find, hf] at hsplit
        exact (List.cons_ne_nil r rs2 (List.append_eq_nil.mp hsplit.symm).2).elim
      | num n =>
        simp only [entriesOf, Json.find, hf] at hsplit
        exact (List.cons_ne_nil r rs2 (List.append_eq_nil.mp hsplit.symm).2).elim
      | str s =>
        simp only [entriesOf, Json.find, hf] at hsplit
        exact (List.cons_ne_nil r rs2 (List.append_eq_nil.mp hsplit.symm).2).elim
      | obj gs =>
        simp only [entriesOf, Json.find, hf] at hsplit
        exact (List.cons_ne_nil r rs2 (List.append_eq_nil.mp hsplit.symm).2).elim
  | null =>
    simp only [entriesOf, Json.find] at hsplit
    exact (List.cons_ne_nil r rs2 (List.append_eq_nil.mp hsplit.symm).2).elim
  | bool b =>
    simp only [entriesOf, Json.find] at hsplit
    exact (List.cons_ne_nil r rs2 (List.append_eq_nil.mp hsplit.symm).2).elim
  | num n =>
    simp only [entriesOf, Json.find] at hsplit
    exact (List.cons_ne_nil r rs2 (List.append_eq_nil.mp hsplit.symm).2).elim
  | str s =>
    simp only [entriesOf, Json.find] at hsplit
    exact (List.cons_ne_nil r rs2 (List.append_eq_nil.mp hsplit.symm).2).elim
  | arr xs =>
    simp only [entriesOf, Json.find] at hsplit
    exact (List.cons_ne_nil r rs2 (List.append_eq_nil.mp hsplit.symm).2).elim

theorem findPeerGo_notFound (parse : String → Option Json) (peer body : String) :
    ∀ (ls : List String) (vs : List Json), parseAll parse ls = some vs →
      (∀ j ∈ vs, objOrNull j = true) →
      (∀ j ∈ vs, ∀ r ∈ entriesOf j, objOrNull r = true) →
      (∀ j ∈ vs, ∀ r ∈ entriesOf j, matchesPeer peer r = false) →
      DhtFindPeerGo parse peer body ls = .error (.notFound peer body)
  | [], vs, _, _, _, _ => rfl
  | l :: ls, vs, h, h1, h2, h3 => by
    cases hp : parse l with
    | none => simp [parseAll, hp] at h
    | some j =>
      cases hm : parseAll parse ls with
      | none => simp [parseAll, hp, hm] at h
      | some vs' =>
        simp only [parseAll, hp, hm, Option.some.injEq] at h
        subst h
        rw [findPeerGo_cons_skip parse peer body l ls j hp
          (h1 j (List.mem_cons_self j vs'))
          (h2 j (List.mem_cons_self j vs'))
          (h3 j (List.mem_cons_self j vs'))]
        exact findPeerGo_notFound parse peer body ls vs' hm
          (fun x hx => h1 x (List.mem_cons_of_mem j hx))
          (fun x hx => h2 x (List.mem_cons_of_mem j hx))
          (fun x hx => h3 x (List.mem_cons_of_mem j hx))

theorem findPeerGo_found (parse : String → Option Json) (peer body : String) :
    ∀ (ls : List String) (pre : List Json) (j : Json) (post : List Json),
      parseAll parse ls = some (pre ++ j :: post) →
      (∀ x ∈ pre, objOrNull x = true) →
      (∀ x ∈ pre, ∀ r ∈ entriesOf x, objOrNull r = true) →
      (∀ x ∈ pre, ∀ r ∈ entriesOf x, matchesPeer peer r = false) →
      ∀ (rs1 : List Json) (r : Json) (rs2 : List Json), entriesOf j = rs1 ++ r :: rs2 →
        (∀ x ∈ rs1, objOrNull x = true) →
        (∀ x ∈ rs1, matchesPeer peer x = false) →
        matchesPeer peer r = true →
        DhtFindPeerGo parse peer body ls = .ok (addrsOf r)
  | [], pre, j, post, h, _, _, _ => by
    simp only [parseAll, Option.some.injEq] at h
    exact absurd h.symm (by simp)
  | l :: ls, pre, j, post, h, h1, h2, h3 => by
    intro rs1 r rs2 hsplit ho1 hn1 hm
    cases hp : parse l with
    | none => simp [parseAll, hp] at h
    | some j0 =>
      cases hml : parseAll parse ls with
      | none => simp [parseAll, hp, hml] at h
      | some vs' =>
        simp only [parseAll, hp, hml, Option.some.injEq] at h
        cases pre with
        | nil =>
          have hj : j0 = j := (List.cons.inj h).1
          subst hj
          exact findPeerGo_cons_found parse peer body l ls j0 hp rs1 r rs2 hsplit ho1 hn1 hm
        | cons p pre' =>
          have hj : j0 = p := (List.cons.inj h).1
          have hvs : vs' = pre' ++ j :: post := (List.cons.inj h).2
          subst hj
          rw [findPeerGo_cons_skip parse peer body l ls j0 hp
            (h1 j0 (List.mem_cons_self j0 pre'))
            (h2 j0 (List.mem_cons_self j0 pre'))
            (h3 j0 (List.mem_cons_self j0 pre'))]
          exact findPeerGo_found parse peer body ls pre' j post (hvs ▸ hml)
            (fun x hx => h1 x (List.mem_cons_of_mem j0 hx))
            (fun x hx => h2 x (List.mem_cons_of_mem j0 hx))
            (fun x hx => h3 x (List.mem_cons_of_mem j0 hx))
            rs1 r rs2 hsplit ho1 hn1 hm

/-- C5: over a reply stream whose lines parse to well-formed values (each
line an object or `null`, each `Responses` entry an object or `null`), peer
discovery returns the `Addrs` list of the first matching entry of the first
line whose `Responses` array contains an entry with the requested `ID`, and
when no line in the entire stream contains such an entry it fails with the
not-found error naming the requested peer and carrying the full raw body. -/
theorem dhtFindPeer_first_match_or_notFound (parse : String → Option Json)
    (peer body : String) (vs : List Json)
    (hparse : parseAll parse (linesOf body) = some vs)
    (hobjs : ∀ j ∈ vs, objOrNull j = true)
    (hents : ∀ j ∈ vs, ∀ r ∈ entriesOf j, objOrNull r = true) :
    ((∀ j ∈ vs, ∀ r ∈ entriesOf j, matchesPeer peer r = false) →
      DhtFindPeer parse peer body = .error (.notFound peer body)) ∧
    (∀ pre j post, vs = pre ++ j :: post →
      (∀ x ∈ pre, ∀ r ∈ entriesOf x, matchesPeer peer r = false) →
      ∀ rs1 r rs2, entriesOf j = rs1 ++ r :: rs2 →
        (∀ x ∈ rs1, matchesPeer peer x = false) →
        matchesPeer peer r = true →
        DhtFindPeer parse peer body = .ok (addrsOf r)) := by
  constructor
  · intro hnm
    exact findPeerGo_notFound parse peer body (linesOf body) vs hparse hobjs hents hnm
  · intro pre j post hdecomp hpre rs1 r rs2 hsplit hn1 hm
    subst hdecomp
    have hjmem : j ∈ pre ++ j :: post :=
      List.mem_append_right pre (List.mem_cons_self j post)
    refine findPeerGo_found parse peer body (linesOf body) pre j post hparse
      (fun x hx => hobjs x (List.mem_append_left _ hx))
      (fun x hx => hents x (List.mem_append_left _ hx))
      hpre rs1 r rs2 hsplit
      (fun x hx => hents j hjmem x ?_) hn1 hm
    rw [hsplit]
    exact List.mem_append_left _ hx

/-- Parse oracle for the peer-discovery scenario: a line whose `Responses`
is `null` and a line whose `Responses` array holds the entry for peer `X`. -/
def peerParse : String → Option Json := fun s =>
  if s = "lineN" then some (.obj [("Responses", .null)])
  else if s = "lineX" then
    some (.obj [("Responses",
      .arr [.obj [("Addrs", .arr [.str "/ip4/1"]), ("ID", .str "X")]])])
  else none

/-- Witness for `dhtFindPeer_first_match_or_notFound`: the matching stream
returns the address list, the stream without the peer fails with the
not-found error carrying the raw body. -/
theorem dhtFindPeer_witness :
    DhtFindPeer peerParse "X" (strUnlinesT ["lineN", "lineX"]) =
      .ok (.arr [.str "/ip4/1"]) ∧
    DhtFindPeer peerParse "X" (strUnlinesT ["lineN"]) =
      .error (.notFound "X" (strUnlinesT ["lineN"])) := by
  constructor
  · exact (dhtFindPeer_first_match_or_notFound peerParse "X" (strUnlinesT ["lineN", "lineX"])
      [.obj [("Responses", .null)],
       .obj [("Responses", .arr [.obj [("Addrs", .arr [.str "/ip4/1"]), ("ID", .str "X")]])]]
      rfl
      (by intro j hj; rcases List.mem_cons.mp hj with rfl | hj2; · rfl
          rcases List.mem_cons.mp hj2 with rfl | hj3; · rfl
          exact absurd hj3 (List.not_mem_nil j))
      (by intro j hj r hr
          rcases List.mem_cons.mp hj with rfl | hj2
          · exact absurd hr (by simp [entriesOf, Json.find, lookupField])
          rcases List.mem_cons.mp hj2 with rfl | hj3
          · have hr2 : r = Json.obj [("Addrs", Json.arr [Json.str "/ip4/1"]),
                ("ID", Json.str "X")] := by
              simpa [entriesOf, Json.find, lookupField] using hr
            subst hr2
            rfl
          exact absurd hj3 (List.not_mem_nil j))).2
      [.obj [("Responses", .null)]]
      (.obj [("Responses", .arr [.obj [("Addrs", .arr [.str "/ip4/1"]), ("ID", .str "X")]])])
      []
      rfl
      (by intro x hx r hr
          rcases List.mem_cons.mp hx with rfl | hx2
          · exact absurd hr (by simp [entriesOf, Json.find, lookupField])
          exact absurd hx2 (List.not_mem_nil x))
      [] (.obj [("Addrs", .arr [.str "/ip4/1"]), ("ID", .str "X")]) []
      rfl
      (by intro x hx; exact absurd hx (List.not_mem_nil x))
      rfl
  · exact (dhtFindPeer_first_match_or_notFound peerParse "X" (strUnlinesT ["lineN"])
      [.obj [("Responses", .null)]]
      rfl
      (by intro j hj; rcases List.mem_cons.mp hj with rfl | hj2; · rfl
          exact absurd hj2 (List.not_mem_nil j))
      (by intro j hj r hr
          rcases List.mem_cons.mp hj with rfl | hj2
          · exact absurd hr (by simp [entriesOf, Json.find, lookupField])
          exact absurd hj2 (List.not_mem_nil j))).1
      (by intro j hj r hr
          rcases List.mem_cons.mp hj with rfl | hj2
          · exact absurd hr (by simp [entriesOf, Json.find, lookupField])
          exact absurd hj2 (List.not_mem_nil j))

end Ipfs
